import Mathlib

/-!
Verification development for the RbxApiClient build-time code generator.

The definitions below are a shallow embedding of the generator
(`postinstall.js`, the `createIndex` template it emits, and the runtime
client `dist/client.js`).  JavaScript strings are modelled through their
character lists (`String.data` / `String.mk`) so that every definition
evaluates inside the kernel; JavaScript exceptions and promise rejections
are modelled with `Except`; the handful of places where the source relies
on dynamic typing (truthiness, strict equality between values of distinct
types, template-literal coercion of `undefined`/`null`) are modelled with
an explicit `JSValue` type.
-/

/-- Dynamic JavaScript values, as far as the embedded code needs them:
`undefined`, `null`, booleans, numbers and strings. -/
inductive JSValue where
  | undef
  | null
  | bool (b : Bool)
  | num (n : Int)
  | str (s : String)
deriving DecidableEq, Repr

/-- Truthiness of a JavaScript value (`if (v)`). -/
def jsTruthy : JSValue → Bool
  | .undef => false
  | .null => false
  | .bool b => b
  | .num n => n != 0
  | .str s => s != ""

/-- Logical negation `!v` of a JavaScript value. -/
def jsNot (v : JSValue) : Bool := !jsTruthy v

/-- Strict equality `===`: values of different runtime types are never
strictly equal; values of the same type compare by payload. -/
def jsStrictEq : JSValue → JSValue → Bool
  | .undef, .undef => true
  | .null, .null => true
  | .bool a, .bool b => a == b
  | .num a, .num b => a == b
  | .str a, .str b => a == b
  | _, _ => false

/-- Errors the embedded generator can raise.  Each constructor corresponds
to one `throw` site (or runtime crash point) of the source:
`unsupportedLocation` models `new Error('Unsupported parameter location: ' + loc)`
in `buildMethodBody`; `duplicateBodyParam` models the `throw new Error(param)`
raised when a second body-location parameter is met (the source passes the
parameter object itself, we record its name); `network` models a rejected
HTTP request; `typeError` models the TypeError the source would raise when
it dereferences `undefined` (for example after a failed `$ref` lookup). -/
inductive JsErr where
  | typeError
  | unsupportedLocation (location : String)
  | duplicateBodyParam (param : String)
  | network (msg : String)
deriving DecidableEq, Repr

instance {ε α : Type} [DecidableEq ε] [DecidableEq α] : DecidableEq (Except ε α) := fun a b =>
  match a, b with
  | .ok x, .ok y => if h : x = y then isTrue (by simp [h]) else isFalse (by simp [h])
  | .error x, .error y => if h : x = y then isTrue (by simp [h]) else isFalse (by simp [h])
  | .ok _, .error _ => isFalse (by simp)
  | .error _, .ok _ => isFalse (by simp)

/- ---- String helpers (kernel-computable models of the JS string operations) ---- -/

/-- Single-quote character as a string (used by the generated-code templates). -/
def aposS : String := "\x27"

/-- Left brace as a string, for generated-code templates. -/
def lbraceS : String := "\x7b"

/-- Right brace as a string, for generated-code templates. -/
def rbraceS : String := "\x7d"

/-- Model of `String.prototype.toNormalCase` from the source: the first
character is raised to upper case and the rest lowered. -/
def toNormalCase (s : String) : String :=
  String.mk ((s.data.take 1).map Char.toUpper ++ (s.data.drop 1).map Char.toLower)

/-- String lowering (`toLowerCase`), character by character. -/
def jsToLower (s : String) : String := String.mk (s.data.map Char.toLower)

/-- Split a character list at every separator character, keeping empty
groups, as `String.prototype.split` with a character-class regex does. -/
def splitChars (p : Char → Bool) : List Char → List (List Char)
  | [] => [[]]
  | c :: cs =>
    match splitChars p cs with
    | [] => [[]]
    | g :: gs => if p c then [] :: g :: gs else (c :: g) :: gs

/-- Split a string at every separator character. -/
def jsSplit (p : Char → Bool) (s : String) : List String :=
  (splitChars p s.data).map String.mk

/-- Join a list of strings with a separator (`Array.prototype.join`). -/
def joinSep (sep : String) : List String → String
  | [] => ""
  | [s] => s
  | s :: rest => s ++ sep ++ joinSep sep rest

/-- Replace the first occurrence of `pat` in a character list by `rep`.
`String.prototype.replace` with a string pattern replaces only the first
occurrence; with an empty pattern it prepends the replacement, which this
definition also does. -/
def replaceFirstChars (pat rep : List Char) : List Char → List Char
  | [] => []
  | c :: cs =>
    if pat.isPrefixOf (c :: cs) then rep ++ (c :: cs).drop pat.length
    else c :: replaceFirstChars pat rep cs

/-- Replace the first occurrence of `pat` in `s` by `rep`. -/
def replaceFirst (s pat rep : String) : String :=
  String.mk (replaceFirstChars pat.data rep.data s.data)

/-- Case-insensitive substring test, modelling `RegExp(pattern, 'i').test(s)`
for a pattern without metacharacters. -/
def listContainsSub (pat : List Char) : List Char → Bool
  | [] => pat.isEmpty
  | c :: cs => pat.isPrefixOf (c :: cs) || listContainsSub pat cs

/-- Coercion of a possibly-absent string into a template literal:
JavaScript renders `undefined` as the string `undefined`. -/
def jsDisplay : Option String → String
  | some s => s
  | none => "undefined"

/-- Model of `a || b` for a possibly-absent string `a`: the empty string is
falsy, so it also falls back to `b`. -/
def jsOrStr (a : Option String) (b : String) : String :=
  match a with
  | some s => if s = "" then b else s
  | none => b

/- ---- Data model (Swagger-like documentation nodes) ---- -/

/-- Documentation schema node. `ref` holds the definition name carried by a
`$ref` field (the source stores `#/definitions/<name>` and strips the prefix
with a regex; the model stores the stripped name directly).  `requiredProps`
is the object-schema `required` list, which the source never reads. -/
inductive SchemaNode where
  | node (ref : Option String) (type : Option String)
         (properties : List (String × SchemaNode))
         (items : Option SchemaNode)
         (description : Option String)
         (requiredProps : List String)
deriving Repr

/-- Reference target of a schema node. -/
def SchemaNode.ref : SchemaNode → Option String
  | .node r _ _ _ _ _ => r

/-- Declared `type` field of a schema node. -/
def SchemaNode.type : SchemaNode → Option String
  | .node _ t _ _ _ _ => t

/-- Properties of an object schema, in insertion order (`Object.entries`). -/
def SchemaNode.properties : SchemaNode → List (String × SchemaNode)
  | .node _ _ p _ _ _ => p

/-- Element schema of an array schema. -/
def SchemaNode.items : SchemaNode → Option SchemaNode
  | .node _ _ _ i _ _ => i

/-- Free-form description of a schema node. -/
def SchemaNode.description : SchemaNode → Option String
  | .node _ _ _ _ d _ => d

/-- Declared `required` property-name list of an object schema. -/
def SchemaNode.requiredProps : SchemaNode → List String
  | .node _ _ _ _ _ r => r

/-- Inline schema node with only a `type` field. -/
def primSchema (t : String) : SchemaNode := .node none (some t) [] none none []

/-- Schema node that is a pure `$ref` to a definition. -/
def refSchema (name : String) : SchemaNode := .node (some name) none [] none none []

/-- Declared parameter of an operation (one entry of `methodInfo.parameters`).
The Swagger field `in` is a Lean keyword and is embedded as `inLoc`. -/
structure ParameterSpec where
  name : String
  inLoc : String := ""
  required : Option Bool := none
  schema : Option SchemaNode := none
  type : Option String := none
  enum : Option (List String) := none
  description : Option String := none
deriving Repr

/-- Operation documentation node (`methodInfo`).  `deprecated` is used only
for its truthiness; `parameters` distinguishes an absent list from an empty
one because the source tests `if (methodInfo.parameters)`. -/
structure MethodInfo where
  summary : Option String := none
  deprecated : Bool := false
  parameters : Option (List ParameterSpec) := none
deriving Repr

/-- Output descriptor of a logical parameter: the documented parameter name
it is serialized under, and its resolved location. -/
structure OutSpec where
  param : String
  location : String
deriving DecidableEq, Repr

/-- Logical parameter produced by `buildParamsInfo` (one entry of `params`). -/
structure ParamInfo where
  name : String
  type : Option String
  description : String
  out : OutSpec
  enum : Option (List String) := none
  required : Bool
deriving DecidableEq, Repr

/-- Result record of `buildParamsInfo`.  `pathParams` maps a placeholder
name to the full matched placeholder text. -/
structure ParamsInfo where
  params : List ParamInfo
  pathParams : List (String × String)
  isMapped : Bool
deriving DecidableEq, Repr

/- ---- Path-placeholder scanning ---- -/

/-- Characters the placeholder-name capture group `([a-zA-Z\-]+)` accepts. -/
def isPathNameChar (c : Char) : Bool := c.isAlpha || c = '-'

/-- Split a character list at the first closing brace, returning the
characters before it and the characters after it. -/
def splitAtCloseBrace : List Char → Option (List Char × List Char)
  | [] => none
  | c :: cs =>
    if c = '}' then some ([], cs)
    else
      match splitAtCloseBrace cs with
      | some (mid, rem) => some (c :: mid, rem)
      | none => none

/-- Scanner for the `matchAll(/\{([a-zA-Z\-]+).*?\}/g)` loop of
`buildParamsInfo`: at an opening brace, the greedy group captures the
maximal run of name characters, the lazy `.*?` runs to the first closing
brace, and scanning resumes after the match; a brace without a nonempty
name run, or without a later closing brace, matches nothing and scanning
resumes after it.  The fuel argument only serves structural recursion:
every recursive call consumes at least one character, so `length + 1`
units of fuel are never exhausted. -/
def scanPathParamsFuel : Nat → List Char → List (String × String)
  | 0, _ => []
  | _ + 1, [] => []
  | fuel + 1, c :: rest =>
    if c = '{' then
      let nm := rest.takeWhile isPathNameChar
      if nm.isEmpty then scanPathParamsFuel fuel rest
      else
        match splitAtCloseBrace (rest.dropWhile isPathNameChar) with
        | some (mid, rem) =>
          (String.mk nm, String.mk ('{' :: (nm ++ mid ++ ['}']))) :: scanPathParamsFuel fuel rem
        | none => scanPathParamsFuel fuel rest
    else scanPathParamsFuel fuel rest

/-- All placeholder matches of a path template, in order. -/
def scanPathParams (l : List Char) : List (String × String) :=
  scanPathParamsFuel (l.length + 1) l

/-- Store one scanned match into the placeholder map; a later assignment to
the same key overwrites the earlier one, as a JS object assignment does. -/
def assocSet (k v : String) : List (String × String) → List (String × String)
  | [] => [(k, v)]
  | (k', v') :: rest => if k' = k then (k, v) :: rest else (k', v') :: assocSet k v rest

/-- The `pathParams` object built from a path template. -/
def buildPathParams (path : String) : List (String × String) :=
  (scanPathParams path.data).foldl (fun acc kv => assocSet kv.1 kv.2 acc) []

/- ---- Model of Array.prototype.sort with the one-argument comparator ---- -/

/-- Boolean the comparator `param => param.required ? -1 : 1` tests. -/
def isReq (p : ParameterSpec) : Bool := p.required.getD false

/-- Insert an element at a given index (appending when the index runs past
the end). -/
def insertAtIdx (x : α) : Nat → List α → List α
  | 0, l => x :: l
  | _ + 1, [] => [x]
  | n + 1, a :: l => a :: insertAtIdx x n l

/-- Leftmost insertion point: the number of leading elements `e` with
`c pivot e ≥ 0`.  V8's TimSort places each element of a short array by a
binary search for the leftmost position whose element compares below the
pivot; because the comparator used by the source reads only its first
argument, the binary search and this linear scan agree. -/
def jsInsertPos (c : α → α → Int) (pivot : α) : List α → Nat
  | [] => 0
  | x :: xs => if c pivot x < 0 then 0 else 1 + jsInsertPos c pivot xs

/-- Model of `Array.prototype.sort(c)` as executed by V8 (Node, the engine
the install script runs under) on short arrays: elements are taken left to
right and inserted at `jsInsertPos`.  For an inconsistent comparator such
as the one the source passes, the ECMAScript specification leaves the
result implementation-defined; this models the engine actually used. -/
def jsSort (c : α → α → Int) (l : List α) : List α :=
  l.foldl (fun acc x => insertAtIdx x (jsInsertPos c x acc) acc) []

/-- The comparator `param => param.required ? -1 : 1` the source passes to
`Array.prototype.sort`: it reads only its first argument, so it is not a
consistent comparison function. -/
def paramCmp (a : ParameterSpec) (_ : ParameterSpec) : Int :=
  if isReq a then -1 else 1

/-- The parameter sort of `buildParamsInfo`:
`methodInfo.parameters.sort(param => param.required ? -1 : 1)`. -/
def sortParameters (ps : List ParameterSpec) : List ParameterSpec :=
  jsSort paramCmp ps

/- ---- Schema-to-method compiler (`postinstall.js`) ---- -/

/-- Model of `extractSchemaNode`: the node itself, or the definition it
refers to.  A `$ref` whose target is missing from `definitions` makes the
source return `undefined`, which every caller immediately dereferences and
crashes on; the model surfaces that crash as `JsErr.typeError` here. -/
def extractSchemaNode (docNode : SchemaNode) (schemas : List (String × SchemaNode)) :
    Except JsErr SchemaNode :=
  match docNode.ref with
  | some name =>
    match List.lookup name schemas with
    | some node => .ok node
    | none => .error .typeError
  | none => .ok docNode

/-- Extraction of a node that may itself be absent (`propInfo.items` or
`schema.items` can be `undefined`, and `extractSchemaNode` reads `$ref` off
it, crashing when it is). -/
def extractOptSchemaNode (docNode : Option SchemaNode) (schemas : List (String × SchemaNode)) :
    Except JsErr SchemaNode :=
  match docNode with
  | some node => extractSchemaNode node schemas
  | none => .error .typeError

/-- Parameter-name normalization: split on `-` or `.`, normal-case every
part after the first, join without separator. -/
def normalizeParamName (name : String) : String :=
  match jsSplit (fun c => c = '-' || c = '.') name with
  | [] => ""
  | first :: rest => first ++ String.join (rest.map toNormalCase)

/-- The grouped (`isMapped`) property loop of `buildParamsInfo`: every
property of the single object-typed parameter becomes one logical parameter
sharing the one output descriptor.  The local `array<...>` type is computed
exactly as in the source — including the possible crash while resolving
`items` — but, as in the source, the pushed record carries `propInfo.type`
and the computed value is dropped.  `groupedParamType` is the local
`paramType` of the grouped branch, the value `mappedParams` computes and
then discards. -/
def groupedParamType (propInfo : SchemaNode) (schemas : List (String × SchemaNode)) :
    Except JsErr (Option String) :=
  if propInfo.type == some "array" then
    match extractOptSchemaNode propInfo.items schemas with
    | .error e => .error e
    | .ok items => .ok (some ("array<" ++ jsDisplay items.type ++ ">"))
  else .ok propInfo.type

def mappedParams (out : OutSpec) (schemas : List (String × SchemaNode)) :
    List (String × SchemaNode) → Except JsErr (List ParamInfo)
  | [] => .ok []
  | (name, propInfo) :: rest =>
    match groupedParamType propInfo schemas with
    | .error e => .error e
    | .ok _paramType =>
      match mappedParams out schemas rest with
      | .error e => .error e
      | .ok tail =>
        .ok ({ name := normalizeParamName name
               type := propInfo.type
               description := jsOrStr propInfo.description ""
               out := out
               enum := none
               required := true } :: tail)

/-- Output descriptor of one declared parameter: the declared name, and
`path` when the name matches a path placeholder (overriding the declared
`in` location), the declared `in` otherwise. -/
def paramOut (pathParams : List (String × String)) (param : ParameterSpec) : OutSpec :=
  { param := param.name
    location := if (List.lookup param.name pathParams).isSome then "path" else param.inLoc }

/-- The independent-parameter loop of `buildParamsInfo`: one logical
parameter per declared parameter, with the location overridden to `path`
when the name matches a path placeholder, array element types resolved
through one `$ref` indirection, and enum values single-quoted.
`resolveParamType` is the `paramType` computation of one loop iteration:
the resolved schema type (with `array<element>` rendering) when the
parameter carries a schema, its plain declared `type` otherwise. -/
def resolveParamType (param : ParameterSpec) (schemas : List (String × SchemaNode)) :
    Except JsErr (Option String) :=
  match param.schema with
  | some node =>
    match extractSchemaNode node schemas with
    | .error e => .error e
    | .ok schema =>
      if schema.type == some "array" then
        match extractOptSchemaNode schema.items schemas with
        | .error e => .error e
        | .ok items => .ok (some ("array<" ++ jsDisplay items.type ++ ">"))
      else .ok schema.type
  | none => .ok param.type

def independentParams (pathParams : List (String × String))
    (schemas : List (String × SchemaNode)) :
    List ParameterSpec → Except JsErr (List ParamInfo)
  | [] => .ok []
  | param :: rest =>
    match resolveParamType param schemas with
    | .error e => .error e
    | .ok paramType =>
      match independentParams pathParams schemas rest with
      | .error e => .error e
      | .ok tail =>
        .ok ({ name := normalizeParamName param.name
               type := paramType
               description := jsOrStr param.description ""
               out := paramOut pathParams param
               enum := param.enum.map (fun l => l.map (fun v => aposS ++ v ++ aposS))
               required := isReq param } :: tail)

/-- Body of `buildParamsInfo` after the in-place sort: the single-object
special case when exactly one parameter with a schema is declared (its
properties are promoted when the resolved type is `object`, and nothing at
all is produced otherwise), the independent loop in every other case, and
the trivial result when the `parameters` field is absent. -/
def buildParamsInfoCore (path : String) (sortedPs : Option (List ParameterSpec))
    (schemas : List (String × SchemaNode)) : Except JsErr ParamsInfo :=
  match sortedPs with
  | none => .ok { params := [], pathParams := [], isMapped := false }
  | some sorted =>
    let pathParams := buildPathParams path
    match sorted with
    | [param] =>
      match param.schema with
      | some node =>
        match extractSchemaNode node schemas with
        | .error e => .error e
        | .ok schema =>
          if schema.type == some "object" then
            match mappedParams (paramOut pathParams param) schemas schema.properties with
            | .error e => .error e
            | .ok params =>
              .ok { params := params, pathParams := pathParams,
                    isMapped := !schema.properties.isEmpty }
          else
            .ok { params := [], pathParams := pathParams, isMapped := false }
      | none =>
        match independentParams pathParams schemas [param] with
        | .error e => .error e
        | .ok params => .ok { params := params, pathParams := pathParams, isMapped := false }
    | other =>
      match independentParams pathParams schemas other with
      | .error e => .error e
      | .ok params => .ok { params := params, pathParams := pathParams, isMapped := false }

/-- Model of `buildParamsInfo`.  The source sorts `methodInfo.parameters`
in place before reading it, so the function returns, next to the parameter
information, the method node as the caller observes it afterwards: its
parameter list replaced by the sorted one. -/
def buildParamsInfo (path : String) (methodInfo : MethodInfo)
    (schemas : List (String × SchemaNode)) : Except JsErr (ParamsInfo × MethodInfo) :=
  let m' : MethodInfo := { methodInfo with parameters := methodInfo.parameters.map sortParameters }
  (buildParamsInfoCore path m'.parameters schemas).map (fun info => (info, m'))

/- ---- Documentation, name, signature and body generation ---- -/

/-- Model of `buildMethodDoc`: the full block when there are parameters or
the operation is deprecated, the single description line otherwise. -/
def buildMethodDoc (description : Option String) (deprecated : Bool)
    (params : List ParamInfo) : String :=
  if params.length != 0 || deprecated then
    joinSep "\n"
      (["/** " ++ jsOrStr description "No description"]
        ++ (if deprecated then ["* @deprecated"] else [])
        ++ params.map (fun param =>
          let enumOrType :=
            match param.enum with
            | some l => "(" ++ joinSep "|" l ++ ")"
            | none => jsDisplay param.type
          let nm := if param.required then param.name else "[" ++ param.name ++ "]"
          "* @param " ++ lbraceS ++ enumOrType ++ rbraceS ++ " " ++ nm ++ " " ++ param.description)
        ++ ["*/"])
  else "/** " ++ jsOrStr description "No description" ++ " */"

/-- Version-segment test `^v(\d|.)+$`: the dot in the regex is unescaped,
so any segment that starts with `v` and has at least one further character
matches (paths contain no newline). -/
def isVersionSeg (s : String) : Bool :=
  match s.data with
  | 'v' :: _ :: _ => true
  | _ => false

/-- Placeholder-segment test `^\{.*?\}$`: an opening brace, anything, and a
closing brace at the very end. -/
def isPlaceholderSeg (s : String) : Bool :=
  match s.data with
  | '{' :: (_ :: _) => s.data.getLast? == some '}'
  | _ => false

/-- Model of `buildMethodName`: split the path on `-` or `/`, drop empty,
version and placeholder segments, drop leading segments that contain the
API class name case-insensitively (only while nothing has been emitted and
more than one segment survived), and concatenate the normal-cased rest. -/
def buildMethodName (apiClassName path : String) : String :=
  let parts := ((jsSplit (fun c => c = '-' || c = '/') path).filter (fun s => s != ""))
    |>.filter (fun part => !isVersionSeg part && !isPlaceholderSeg part)
  parts.foldl
    (fun nm part =>
      if nm = "" && parts.length > 1
          && listContainsSub (jsToLower apiClassName).data (jsToLower part).data then nm
      else nm ++ toNormalCase part)
    ""

/-- Model of `buildMethodParams`: the destructured named-parameter list,
with a `required(...)` default for required parameters and `null` (the
template-literal rendering of the JS `null`) for optional ones. -/
def buildMethodParams (params : List ParamInfo) : String :=
  let resultParams := params.map (fun param =>
    param.name ++ " = "
      ++ (if param.required then "required(" ++ aposS ++ param.name ++ aposS ++ ")" else "null"))
  if resultParams.length != 0 then
    lbraceS ++ " " ++ joinSep ", " resultParams ++ " " ++ rbraceS ++ " = " ++ lbraceS ++ rbraceS
  else ""

/-- Accumulated request pieces while the independent-parameter loop of
`buildMethodBody` routes parameters. -/
structure BodyState where
  fullURL : String
  reqBody : Option String := none
  reqParams : List String := []
  reqHeaders : List String := []
deriving DecidableEq, Repr

/-- The independent-parameter loop of `buildMethodBody`: path parameters
are interpolated into the URL, query/header parameters are routed to their
mappings, a body parameter becomes the payload (a second one is a hard
error), a formData parameter overwrites the payload and spreads its
headers, and any other location is a hard generation error. -/
def independentLoop (pathParams : List (String × String)) (st : BodyState) :
    List ParamInfo → Except JsErr BodyState
  | [] => .ok st
  | param :: rest =>
    if param.out.location = "path" then
      let placeholder := (List.lookup param.out.param pathParams).getD "undefined"
      let url' := replaceFirst st.fullURL placeholder ("$" ++ lbraceS ++ param.name ++ rbraceS)
      independentLoop pathParams { st with fullURL := url' } rest
    else if param.out.location = "query" then
      let entry := aposS ++ param.out.param ++ aposS ++ ": " ++ param.name
      independentLoop pathParams { st with reqParams := st.reqParams ++ [entry] } rest
    else if param.out.location = "header" then
      let entry := aposS ++ param.out.param ++ aposS ++ ": " ++ param.name
      independentLoop pathParams { st with reqHeaders := st.reqHeaders ++ [entry] } rest
    else if param.out.location = "body" then
      if st.reqBody.isSome then .error (.duplicateBodyParam param.name)
      else independentLoop pathParams { st with reqBody := some param.name } rest
    else if param.out.location = "formData" then
      let spread := "...(" ++ param.name ++ " ? " ++ param.name ++ ".getHeaders() : "
        ++ lbraceS ++ rbraceS ++ ")"
      independentLoop pathParams
        { st with reqBody := some param.name, reqHeaders := st.reqHeaders ++ [spread] } rest
    else .error (.unsupportedLocation param.out.location)

/-- The final template of `buildMethodBody`: the `this.client({...})` call
with the non-empty clauses only. -/
def renderClientCall (methodType : String) (st : BodyState) : String :=
  "return this.client(" ++ lbraceS ++ "\n    "
    ++ joinSep ",\n"
      (["method: " ++ aposS ++ jsToLower methodType ++ aposS,
        "url: `" ++ st.fullURL ++ "`"]
        ++ (match st.reqBody with
            | some body => ["data: " ++ body]
            | none => [])
        ++ (if st.reqParams.length != 0 then
              ["params: " ++ lbraceS ++ joinSep ",\n" st.reqParams ++ rbraceS] else [])
        ++ (if st.reqHeaders.length != 0 then
              ["headers: " ++ lbraceS ++ joinSep ",\n" st.reqHeaders ++ rbraceS] else []))
    ++ "\n  " ++ rbraceS ++ ");"

/-- Model of `buildMethodBody`.  In the grouped case the variables are
combined into one object literal placed at the location of the single
original parameter, read off the descriptor left by the last loop
iteration (an empty grouped parameter list leaves it `undefined` and the
source crashes reading `.location`); the grouped branch supports only the
path, query, header and body locations.  The independent case routes each
parameter on its own. -/
def buildMethodBody (fullURL methodType : String) (params : List ParamInfo)
    (pathParams : List (String × String)) (isMapped : Bool) : Except JsErr String :=
  if isMapped then
    match params.getLast? with
    | none => .error .typeError
    | some lastParam =>
      let out := lastParam.out
      let combined :=
        lbraceS
          ++ joinSep ",\n" (params.map (fun param => aposS ++ param.name ++ aposS ++ ": " ++ param.name))
          ++ rbraceS
      if out.location = "path" then
        .ok (renderClientCall methodType
          { fullURL := replaceFirst fullURL ((List.lookup out.param pathParams).getD "undefined") combined })
      else if out.location = "query" then
        .ok (renderClientCall methodType
          { fullURL := fullURL, reqParams := [aposS ++ out.param ++ aposS ++ ": " ++ combined] })
      else if out.location = "header" then
        .ok (renderClientCall methodType
          { fullURL := fullURL, reqHeaders := [aposS ++ out.param ++ aposS ++ ": " ++ combined] })
      else if out.location = "body" then
        .ok (renderClientCall methodType { fullURL := fullURL, reqBody := some combined })
      else .error (.unsupportedLocation out.location)
  else
    match independentLoop pathParams { fullURL := fullURL } params with
    | .error e => .error e
    | .ok st => .ok (renderClientCall methodType st)

/-- One iteration of the `buildEndpoint` loop: parameter analysis (with its
in-place sort, reflected in the returned method node), documentation, name,
signature and body generation, and assembly of the method source text.
`methodTypesCount` is the number of verbs documented at the path: a verb
prefix is added only when it exceeds one. -/
def compileOperation (apiClassName url path methodType : String) (methodInfo : MethodInfo)
    (schemas : List (String × SchemaNode)) (methodTypesCount : Nat) :
    Except JsErr (String × MethodInfo) :=
  match buildParamsInfo path methodInfo schemas with
  | .error e => .error e
  | .ok (info, m') =>
    match buildMethodBody (url ++ path) methodType info.params info.pathParams info.isMapped with
    | .error e => .error e
    | .ok methodBody =>
      let methodDoc := buildMethodDoc methodInfo.summary methodInfo.deprecated info.params
      let methodName := buildMethodName apiClassName path
      let methodParams := buildMethodParams info.params
      let shownType := if methodTypesCount > 1 then toNormalCase methodType else ""
      .ok (methodDoc ++ "\n    " ++ shownType ++ methodName ++ "(" ++ methodParams ++ ") "
        ++ lbraceS ++ "\n      " ++ methodBody ++ "\n    " ++ rbraceS, m')

/-- Loop of `buildEndpoint` over every verb documented at one path. -/
def buildEndpointLoop (apiClassName url path : String)
    (schemas : List (String × SchemaNode)) (methodTypesCount : Nat) :
    List (String × MethodInfo) → Except JsErr (List String × List (String × MethodInfo))
  | [] => .ok ([], [])
  | (methodType, methodInfo) :: rest =>
    match compileOperation apiClassName url path methodType methodInfo schemas methodTypesCount with
    | .error e => .error e
    | .ok (text, m') =>
      match buildEndpointLoop apiClassName url path schemas methodTypesCount rest with
      | .error e => .error e
      | .ok (texts, rest') => .ok (text :: texts, (methodType, m') :: rest')

/-- Model of `buildEndpoint`: the joined method texts for one path, along
with the endpoint data as left behind by the in-place parameter sorts. -/
def buildEndpoint (apiClassName url path : String) (endpointData : List (String × MethodInfo))
    (schemas : List (String × SchemaNode)) :
    Except JsErr (String × List (String × MethodInfo)) :=
  match buildEndpointLoop apiClassName url path schemas endpointData.length endpointData with
  | .error e => .error e
  | .ok (texts, endpointData') => .ok (joinSep "\n\n" texts, endpointData')

/- ---- Document fetcher / tree builder ---- -/

/-- Per-version schema document (`/docs/json/<version>`): path templates
with their verb map, and the shared `definitions`. -/
structure SchemaDoc where
  paths : List (String × List (String × MethodInfo))
  definitions : List (String × SchemaNode)

/-- Metadata entry of one API, as `fetchMeta` records it. -/
structure ApiMeta where
  url : String
  versions : List String
deriving DecidableEq, Repr

/-- One node of the API tree: the metadata and, per version, the generated
method texts (one joined text per path). -/
structure ApiTreeEntry where
  meta : ApiMeta
  versions : List (String × List String)
deriving DecidableEq, Repr

/-- Generation of all method texts of one fetched document. -/
def buildDocMethods (apiName url : String) (doc : SchemaDoc) : Except JsErr (List String) :=
  doc.paths.foldlM
    (fun acc pathEntry => do
      let (text, _) ← buildEndpoint apiName url pathEntry.1 pathEntry.2 doc.definitions
      pure (acc ++ [text]))
    []

/-- The fetch-and-generate tasks of one API, one per declared version.  The
source pushes `client.get(url).then(...)` with no rejection handler, so a
failed fetch — like a generation error inside the handler — rejects the
task; the model therefore propagates the first error in request order
(which of several rejections `Promise.all` surfaces is only a matter of
scheduling). -/
def buildVersions (apiName : String) (meta : ApiMeta)
    (fetchDoc : String → String → Except JsErr SchemaDoc) :
    List String → Except JsErr (List (String × List String))
  | [] => .ok []
  | version :: rest =>
    match fetchDoc meta.url version with
    | .error e => .error e
    | .ok doc =>
      match buildDocMethods apiName meta.url doc with
      | .error e => .error e
      | .ok methods =>
        match buildVersions apiName meta fetchDoc rest with
        | .error e => .error e
        | .ok tail => .ok ((version, methods) :: tail)

/-- Model of `buildApiTree`: for every API and every declared version the
schema document is fetched and compiled; the `await Promise.all` barrier
rejects as soon as any task does. -/
def buildApiTree (apis : List (String × ApiMeta))
    (fetchDoc : String → String → Except JsErr SchemaDoc) :
    Except JsErr (List (String × ApiTreeEntry)) :=
  match apis with
  | [] => .ok []
  | (apiName, meta) :: rest =>
    match buildVersions apiName meta fetchDoc meta.versions with
    | .error e => .error e
    | .ok versions =>
      match buildApiTree rest fetchDoc with
      | .error e => .error e
      | .ok tail => .ok ((apiName, { meta := meta, versions := versions }) :: tail)

/- ---- Runtime client (`dist/client.js`) ---- -/

/-- The designated CSRF-token refresh endpoint. -/
def XCSRFEndpoint : String := "https://auth.roblox.com/v2/logout"

/-- The pieces of `err.response` the interceptor reads: the status, the
messages of the structured `data.errors` list when one is carried, and the
`x-csrf-token` response header when present. -/
structure AxiosResponse where
  status : Int
  errors : Option (List String) := none
  xcsrfToken : Option String := none
deriving DecidableEq, Repr

/-- The pieces of the axios error object the interceptor reads. -/
structure AxiosErr where
  hasConfig : Bool := true
  configUrl : String := ""
  response : Option AxiosResponse := none
  message : String := ""
deriving DecidableEq, Repr

/-- Observable outcome of the response-error interceptor:
`reject` propagates the error with its (possibly rewritten) message,
recording whether the expiry callback ran; `refreshAndRetry` is the
403 path that posts to the refresh endpoint and replays the request;
`resolveTokenStored` stores the refreshed token and resolves with no
value; `rejectRaw` is the rejection with the bare configuration string. -/
inductive InterceptOutcome where
  | reject (message : String) (expiredCallbackCalled : Bool)
  | refreshAndRetry
  | resolveTokenStored (token : String)
  | rejectRaw (reason : String)
deriving DecidableEq, Repr

/-- The structured-error append: when the response payload carries a
non-empty `errors` list, the first message is appended to the error's own
message. -/
def appendErrors (message : String) (r : AxiosResponse) : String :=
  match r.errors with
  | some (m :: _) => message ++ ": " ++ m
  | _ => message

/-- Model of the response-error interceptor of `createClient`.  With a
config and a response present: a 401 calls the expiry callback when one was
given and then falls through — like every status other than 403 — to the
structured-error append before rejecting; a 403 on an ordinary endpoint
refreshes and retries, a 403 on the refresh endpoint itself stores the
header token or rejects with the configuration message.  Without config or
response the error is rejected untouched. -/
def interceptError (hasCallback : Bool) (err : AxiosErr) : InterceptOutcome :=
  match err.response with
  | some r =>
    if err.hasConfig then
      if r.status = 403 then
        if err.configUrl ≠ XCSRFEndpoint then .refreshAndRetry
        else
          match r.xcsrfToken with
          | some token => .resolveTokenStored token
          | none => .rejectRaw "Cannot get X-CSRF-TOKEN, change API endpoint"
      else
        .reject (appendErrors err.message r) (decide (r.status = 401) && hasCallback)
    else .reject err.message false
  | none => .reject err.message false

/- ---- Generated root factory (`createIndex` template) ---- -/

/-- The error object the generated factory catches from the identity
lookup; the source reads only its `status` property, whose value can be of
any runtime type (axios errors in fact carry no top-level `status`). -/
structure IdentityErr where
  status : JSValue := .undef
deriving DecidableEq, Repr

/-- Identity payload of a successful `Users.v1.Authenticated()` call. -/
structure UserInfo where
  id : Int
  name : String
deriving DecidableEq, Repr

/-- The container fields the factory fills in. -/
structure RBXClientState where
  userID : Option Int := none
  userName : Option String := none
deriving DecidableEq, Repr

/-- The rethrow condition `(!err.status !== 401)` of the generated factory,
evaluated under JavaScript semantics: `!err.status` is a boolean, and a
strict comparison between a boolean and the number 401 never holds. -/
def identityRethrowCond (status : JSValue) : Bool :=
  !jsStrictEq (.bool (jsNot status)) (.num 401)

/-- Model of the generated `createRBXClient` factory around its identity
lookup: on success the user fields are resolved; on failure the error is
rethrown exactly when `identityRethrowCond` holds, and the container is
returned without identity fields otherwise. -/
def createRBXClient (lookup : Except IdentityErr UserInfo) :
    Except IdentityErr RBXClientState :=
  match lookup with
  | .ok info => .ok { userID := some info.id, userName := some info.name }
  | .error err =>
    if identityRethrowCond err.status then .error err
    else .ok { userID := none, userName := none }

/- ---- Runtime semantics of the generated required-parameter guard ---- -/

/-- Property lookup on the argument object of a generated method call. -/
def jsGetProp (args : List (String × JSValue)) (name : String) : Option JSValue :=
  List.lookup name args

/-- Destructuring-default semantics: the initializer of a pattern field is
evaluated exactly when the property is absent or carries `undefined`. -/
def destructuringDefaultUsed (args : List (String × JSValue)) (name : String) : Bool :=
  match jsGetProp args name with
  | none => true
  | some .undef => true
  | some _ => false

/-- Whether calling a generated method with the given argument object makes
the guard of one logical parameter fire: the parameter's default is the
`required(...)` call only when the parameter is required, and the default
is evaluated exactly when the destructuring falls back to it. -/
def guardFires (param : ParamInfo) (args : List (String × JSValue)) : Bool :=
  param.required && destructuringDefaultUsed args param.name

/- ---- Lemmas about the parameter sort ---- -/

theorem insertAtIdx_length_self (x : α) (l : List α) : insertAtIdx x l.length l = l ++ [x] := by
  induction l with
  | nil => rfl
  | cons a t ih => simpa [insertAtIdx] using ih

theorem jsInsertPos_paramCmp_req (p : ParameterSpec) (hp : isReq p = true)
    (l : List ParameterSpec) : jsInsertPos paramCmp p l = 0 := by
  cases l with
  | nil => rfl
  | cons a t => simp [jsInsertPos, paramCmp, hp]

theorem jsInsertPos_paramCmp_opt (p : ParameterSpec) (hp : isReq p = false)
    (l : List ParameterSpec) : jsInsertPos paramCmp p l = l.length := by
  induction l with
  | nil => rfl
  | cons a t ih => simp [jsInsertPos, paramCmp, hp, ih]; omega

theorem sortParameters_foldl (ps : List ParameterSpec) :
    ∀ Fr Fo : List ParameterSpec, (∀ x ∈ Fr, isReq x = true) → (∀ x ∈ Fo, isReq x = false) →
    List.foldl (fun acc x => insertAtIdx x (jsInsertPos paramCmp x acc) acc) (Fr.reverse ++ Fo) ps
      = (Fr ++ ps.filter isReq).reverse ++ (Fo ++ ps.filter (fun p => !isReq p)) := by
  induction ps with
  | nil => intro Fr Fo _ _; simp
  | cons p rest ih =>
    intro Fr Fo hFr hFo
    by_cases hp : isReq p = true
    · have hpos := jsInsertPos_paramCmp_req p hp (Fr.reverse ++ Fo)
      have hacc : insertAtIdx p (jsInsertPos paramCmp p (Fr.reverse ++ Fo)) (Fr.reverse ++ Fo)
          = (Fr ++ [p]).reverse ++ Fo := by
        rw [hpos]; simp [insertAtIdx]
      have hmem : ∀ x ∈ Fr ++ [p], isReq x = true := by
        intro x hx
        rcases List.mem_append.mp hx with h | h
        · exact hFr x h
        · simp at h; simpa [h]
      calc List.foldl (fun acc x => insertAtIdx x (jsInsertPos paramCmp x acc) acc)
            (Fr.reverse ++ Fo) (p :: rest)
          = List.foldl (fun acc x => insertAtIdx x (jsInsertPos paramCmp x acc) acc)
            ((Fr ++ [p]).reverse ++ Fo) rest := by rw [List.foldl_cons, hacc]
        _ = ((Fr ++ [p]) ++ rest.filter isReq).reverse
              ++ (Fo ++ rest.filter (fun q => !isReq q)) := ih (Fr ++ [p]) Fo hmem hFo
        _ = (Fr ++ (p :: rest).filter isReq).reverse
              ++ (Fo ++ (p :: rest).filter (fun q => !isReq q)) := by
            simp [List.filter_cons, hp]
    · have hp' : isReq p = false := by simpa using hp
      have hpos := jsInsertPos_paramCmp_opt p hp' (Fr.reverse ++ Fo)
      have hacc : insertAtIdx p (jsInsertPos paramCmp p (Fr.reverse ++ Fo)) (Fr.reverse ++ Fo)
          = Fr.reverse ++ (Fo ++ [p]) := by
        rw [hpos, insertAtIdx_length_self]; simp
      have hmem : ∀ x ∈ Fo ++ [p], isReq x = false := by
        intro x hx
        rcases List.mem_append.mp hx with h | h
        · exact hFo x h
        · simp at h; simpa [h]
      calc List.foldl (fun acc x => insertAtIdx x (jsInsertPos paramCmp x acc) acc)
            (Fr.reverse ++ Fo) (p :: rest)
          = List.foldl (fun acc x => insertAtIdx x (jsInsertPos paramCmp x acc) acc)
            (Fr.reverse ++ (Fo ++ [p])) rest := by rw [List.foldl_cons, hacc]
        _ = (Fr ++ rest.filter isReq).reverse
              ++ ((Fo ++ [p]) ++ rest.filter (fun q => !isReq q)) := ih Fr (Fo ++ [p]) hFr hmem
        _ = (Fr ++ (p :: rest).filter isReq).reverse
              ++ (Fo ++ (p :: rest).filter (fun q => !isReq q)) := by
            simp [List.filter_cons, hp']

theorem sortParameters_eq (ps : List ParameterSpec) :
    sortParameters ps = (ps.filter isReq).reverse ++ ps.filter (fun p => !isReq p) := by
  have h := sortParameters_foldl ps [] [] (by simp) (by simp)
  simpa [sortParameters, jsSort] using h

theorem length_filter_req (ps : List ParameterSpec) :
    (ps.filter isReq).length + (ps.filter (fun p => !isReq p)).length = ps.length := by
  induction ps with
  | nil => rfl
  | cons p rest ih =>
    by_cases hp : isReq p = true <;> simp [List.filter_cons, hp, ← ih] <;> omega

theorem sortParameters_length (ps : List ParameterSpec) :
    (sortParameters ps).length = ps.length := by
  rw [sortParameters_eq]
  simpa using length_filter_req ps

theorem sortParameters_singleton (p : ParameterSpec) : sortParameters [p] = [p] := rfl

theorem sortParameters_idem (ps : List ParameterSpec)
    (h : (ps.filter isReq).length ≤ 1) :
    sortParameters (sortParameters ps) = sortParameters ps := by
  rw [sortParameters_eq ps, sortParameters_eq]
  have h1 : List.filter isReq (ps.filter isReq).reverse = (ps.filter isReq).reverse :=
    List.filter_eq_self.mpr (fun a ha => List.mem_filter.mp (List.mem_reverse.mp ha) |>.2)
  have h2 : List.filter isReq (ps.filter (fun p => !isReq p)) = [] := by
    apply List.filter_eq_nil_iff.mpr
    intro a ha
    have := (List.mem_filter.mp ha).2
    simp at this
    simp [this]
  have h3 : List.filter (fun p => !isReq p) (ps.filter isReq).reverse = [] := by
    apply List.filter_eq_nil_iff.mpr
    intro a ha
    have := (List.mem_filter.mp (List.mem_reverse.mp ha)).2
    simp [this]
  have h4 : List.filter (fun p => !isReq p) (ps.filter (fun p => !isReq p))
      = ps.filter (fun p => !isReq p) :=
    List.filter_eq_self.mpr (fun a ha => (List.mem_filter.mp ha).2)
  rw [List.filter_append, List.filter_append, h1, h2, h3, h4, List.append_nil, List.nil_append,
    List.reverse_reverse]
  have hrev : ps.filter isReq = (ps.filter isReq).reverse := by
    match hR : ps.filter isReq with
    | [] => rfl
    | [a] => rfl
    | a :: b :: t => rw [hR] at h; simp at h
  exact congrArg (· ++ ps.filter (fun p => !isReq p)) hrev

/- ---- Concrete instances used by the claim theorems ---- -/

/-- Required query parameter named `a`. -/
def c7ParamA : ParameterSpec := { name := "a", inLoc := "query", required := some true }

/-- Required query parameter named `b`. -/
def c7ParamB : ParameterSpec := { name := "b", inLoc := "query", required := some true }

/-- Object schema with one array-typed property, for the grouped-case type
resolution. -/
def c8ObjSchema : SchemaNode :=
  .node none (some "object")
    [("ids", .node none (some "array") [] (some (primSchema "long")) none [])]
    none none []

/-- Definitions table holding the object schema under `ArrayReq`. -/
def c8Defs : List (String × SchemaNode) := [("ArrayReq", c8ObjSchema)]

/-- Operation with the single object-typed body parameter (grouped case). -/
def c8GroupedMethod : MethodInfo :=
  { parameters := some [{ name := "request", inLoc := "body", schema := some (refSchema "ArrayReq") }] }

/-- Operation with two independent parameters, the first array-typed. -/
def c8IndepMethod : MethodInfo :=
  { parameters := some
      [{ name := "ids", inLoc := "query", required := some true,
         schema := some (.node none (some "array") [] (some (primSchema "long")) none []) },
       { name := "cursor", inLoc := "query", type := some "string" }] }

/-- C7 (corrected): the reordering is not a stable partition.  On two
parameters that are both required, the engine's sort inserts each required
parameter at the front, so the result lists them in reverse declaration
order instead of keeping the original relative order the claim requires. -/
theorem C7_counterexample :
    ((sortParameters [c7ParamA, c7ParamB]).map (fun p => p.name)) = ["b", "a"]
    ∧ (["b", "a"] : List String) ≠ ["a", "b"] := by
  constructor
  · decide
  · decide

/-- C7 (amended): the parameter reordering places all required parameters
before all optional ones and keeps the original relative order of the
optional parameters, but reverses the relative order of the required
parameters: the result is the reversed required sublist followed by the
optional sublist. -/
theorem C7_amended (ps : List ParameterSpec) :
    sortParameters ps = (ps.filter isReq).reverse ++ ps.filter (fun p => !isReq p) :=
  sortParameters_eq ps

/-- C3 (code bug): the rethrow condition `(!err.status !== 401)` of the
generated factory compares a boolean with the number 401 under strict
inequality, which holds for every possible status value, so the factory
rethrows every identity-lookup failure — including an authorization (401)
failure, on which the claim (and the evident intent of the code, whose
comment says the expiry callback has already handled the 401) expects the
container to still be returned. -/
theorem C3_code_bug_eval :
    (∀ s : JSValue, identityRethrowCond s = true)
    ∧ ∀ err : IdentityErr, createRBXClient (Except.error err) = Except.error err := by
  constructor
  · intro s
    cases s <;> simp [identityRethrowCond, jsStrictEq, jsNot, jsTruthy]
  · intro err
    have h : identityRethrowCond err.status = true := by
      cases herr : err.status <;> simp [identityRethrowCond, jsStrictEq, jsNot, jsTruthy]
    simp [createRBXClient, h]

/-- C8 (code bug): for an object property whose schema is array-typed, the
grouped branch records the plain type `array` — the `array<element>` string
is computed into a local that is then discarded, as the third conjunct
shows —, while the independent-parameter branch does record
`array<elementType>` as the claim states. -/
theorem C8_code_bug_eval :
    (buildParamsInfo "/v1/items" c8GroupedMethod c8Defs).map
        (fun r => r.1.params.map (fun q => (q.name, q.type)))
      = .ok [("ids", some "array")]
    ∧ (buildParamsInfo "/v1/items" c8IndepMethod c8Defs).map
        (fun r => r.1.params.map (fun q => (q.name, q.type)))
      = .ok [("ids", some "array<long>"), ("cursor", some "string")]
    ∧ groupedParamType (.node none (some "array") [] (some (primSchema "long")) none []) c8Defs
      = .ok (some "array<long>") := by
  refine ⟨by decide, by decide, by decide⟩

/-- Required logical parameter, for the guard-semantics theorems. -/
def c6Param : ParamInfo :=
  { name := "userId", type := some "long", description := "",
    out := { param := "userId", location := "query" }, required := true }

/-- C6 (corrected): supplying a value is not enough to silence the guard.
The argument object below supplies the property `userId` with the value
`undefined`; destructuring still evaluates the default, so the
required-parameter guard fires even though the caller did not omit the
argument, refuting the claimed if-and-only-if. -/
theorem C6_counterexample :
    guardFires c6Param [("userId", JSValue.undef)] = true
    ∧ jsGetProp [("userId", JSValue.undef)] "userId" = some JSValue.undef := by
  constructor
  · decide
  · decide

/-- C6 (amended): for a required parameter of a generated method, the
runtime guard fires if and only if the named argument is omitted or
supplied as `undefined`; any other supplied value — `null` included — does
not trigger the guard. -/
theorem C6_amended (param : ParamInfo) (args : List (String × JSValue))
    (h : param.required = true) :
    (guardFires param args = true ↔
      (jsGetProp args param.name = none ∨ jsGetProp args param.name = some JSValue.undef))
    ∧ ∀ v, jsGetProp args param.name = some v → v ≠ JSValue.undef →
        guardFires param args = false := by
  constructor
  · cases hv : jsGetProp args param.name with
    | none => simp [guardFires, destructuringDefaultUsed, h, hv]
    | some v => cases v <;> simp [guardFires, destructuringDefaultUsed, h, hv]
  · intro v hv hne
    cases v <;> simp_all [guardFires, destructuringDefaultUsed, h, hv]

/-- C6 (witness): the amended theorem applied to the concrete required
parameter and an argument object supplying `null`: the guard stays silent. -/
theorem C6_witness :
    guardFires c6Param [("userId", JSValue.null)] = false :=
  (C6_amended c6Param [("userId", JSValue.null)] rfl).2 JSValue.null (by decide) (by decide)

/-- Error object of a failed 401 response that carries a structured error
list, as the runtime client's interceptor sees it. -/
def c4Err401 : AxiosErr :=
  { hasConfig := true, configUrl := "https://users.roblox.com/v1/session",
    response := some { status := 401, errors := some ["Token expired"] },
    message := "Request failed with status code 401" }

/-- C4 (corrected): on a 401 response carrying a structured error list the
interceptor does invoke the expiry callback and does not retry, but it does
mutate the error before propagating it: the 401 branch falls through to the
error-list append, so the propagated message carries the appended first
error message, refuting the no-mutation and only-on-other-errors parts of
the claim. -/
theorem C4_counterexample :
    interceptError true c4Err401
      = .reject "Request failed with status code 401: Token expired" true
    ∧ "Request failed with status code 401: Token expired" ≠ c4Err401.message := by
  constructor
  · decide
  · decide

/-- C4 (amended): for every error with a config and a response whose status
is not 403, the interceptor rejects (it never retries), calls the expiry
callback exactly when the status is 401 and a callback was supplied, and
propagates the message with the first structured-error message appended
when one is present — on 401 responses just as on any other non-403 error
response. -/
theorem C4_amended (hasCallback : Bool) (err : AxiosErr) (r : AxiosResponse)
    (hr : err.response = some r) (hc : err.hasConfig = true) (hs : r.status ≠ 403) :
    interceptError hasCallback err
      = .reject (appendErrors err.message r) (decide (r.status = 401) && hasCallback) := by
  simp [interceptError, hr, hc, hs]

/-- Error object of a failed 404 response, for the C4 witness. -/
def c4ErrW : AxiosErr :=
  { hasConfig := true, configUrl := "https://users.roblox.com/v1/x",
    response := some { status := 404, errors := some ["NotFound"] },
    message := "boom" }

/-- C4 (witness): the amended theorem applied to a 404 response with a
structured error list and no callback: the rejection carries the appended
message and no callback call. -/
theorem C4_witness :
    interceptError false c4ErrW = InterceptOutcome.reject "boom: NotFound" false := by
  have h := C4_amended false c4ErrW
    { status := 404, errors := some ["NotFound"] } rfl rfl (by decide)
  exact h.trans (by decide)

/- ---- Error propagation through the tree builder ---- -/

theorem buildVersions_error (apiName : String) (meta : ApiMeta)
    (fetchDoc : String → String → Except JsErr SchemaDoc) :
    ∀ (versions : List String) (v : String) (e : JsErr), v ∈ versions →
      fetchDoc meta.url v = .error e →
      ∃ e', buildVersions apiName meta fetchDoc versions = .error e' := by
  intro versions
  induction versions with
  | nil => intro v e hv _; simp at hv
  | cons w rest ih =>
    intro v e hv hfetch
    cases hw : fetchDoc meta.url w with
    | error e' => exact ⟨e', by simp [buildVersions, hw]⟩
    | ok doc =>
      have hvrest : v ∈ rest := by
        rcases List.mem_cons.mp hv with h | h
        · subst h; rw [hw] at hfetch; exact absurd hfetch (by simp)
        · exact h
      cases hbm : buildDocMethods apiName meta.url doc with
      | error e' => exact ⟨e', by simp [buildVersions, hw, hbm]⟩
      | ok methods =>
        obtain ⟨e', he'⟩ := ih v e hvrest hfetch
        exact ⟨e', by simp [buildVersions, hw, hbm, he']⟩

/-- C1 (amended): a failed schema-document fetch for any declared version
of any discovered API is not recovered: the rejection (like a generation
error inside the handler) propagates through the wait-all barrier and the
whole tree-building stage fails, instead of the version being silently
omitted. -/
theorem C1_amended (apis : List (String × ApiMeta))
    (fetchDoc : String → String → Except JsErr SchemaDoc)
    (name : String) (meta : ApiMeta) (v : String) (e : JsErr)
    (hmem : (name, meta) ∈ apis) (hv : v ∈ meta.versions)
    (hfetch : fetchDoc meta.url v = .error e) :
    ∃ e', buildApiTree apis fetchDoc = .error e' := by
  induction apis with
  | nil => simp at hmem
  | cons hd rest ih =>
    obtain ⟨hdName, hdMeta⟩ := hd
    cases hbv : buildVersions hdName hdMeta fetchDoc hdMeta.versions with
    | error e' => exact ⟨e', by simp [buildApiTree, hbv]⟩
    | ok versions =>
      rcases List.mem_cons.mp hmem with h | h
      · obtain ⟨h1, h2⟩ := Prod.mk.injEq .. ▸ h
        subst h1; subst h2
        obtain ⟨e', he'⟩ := buildVersions_error name meta fetchDoc meta.versions v e hv hfetch
        rw [he'] at hbv
        exact absurd hbv (by simp)
      · obtain ⟨e', he'⟩ := ih h
        exact ⟨e', by simp [buildApiTree, hbv, he']⟩

/-- Metadata entry of one API with a single declared version, for the C1
counterexample and witness. -/
def c1Meta : ApiMeta := { url := "https://users.roblox.com", versions := ["v1"] }

/-- C1 (counterexample): with one API declaring one version and a document
fetch that fails, the tree builder surfaces the failure instead of
returning a tree with the version silently omitted — the claim's expected
result would be an `ok` tree. -/
theorem C1_counterexample :
    buildApiTree [("Users", c1Meta)] (fun _ _ => .error (.network "service unavailable"))
      = .error (.network "service unavailable") := by
  decide

/-- C1 (witness): the amended theorem applied to the concrete single-API,
single-version setting with an always-failing fetch. -/
theorem C1_witness :
    ∃ e', buildApiTree [("Users", c1Meta)] (fun _ _ => .error (.network "down"))
      = .error e' :=
  C1_amended [("Users", c1Meta)] (fun _ _ => .error (.network "down"))
    "Users" c1Meta "v1" (.network "down") (by decide) (by decide) rfl

/- ---- Lemmas about the body-generation loop ---- -/

/-- The parameter locations the independent-parameter branch of
`buildMethodBody` can route without raising the unsupported-location
error. -/
def supportedLocs : List String := ["path", "query", "header", "body", "formData"]

theorem independentLoop_no_unsupported (pathParams : List (String × String)) :
    ∀ (ps : List ParamInfo) (st : BodyState),
      (∀ p ∈ ps, p.out.location ∈ supportedLocs) →
      ∀ loc, independentLoop pathParams st ps ≠ .error (.unsupportedLocation loc) := by
  intro ps
  induction ps with
  | nil => intro st _ loc h; simp [independentLoop] at h
  | cons p rest ih =>
    intro st hmem loc h
    have hrest : ∀ q ∈ rest, q.out.location ∈ supportedLocs :=
      fun q hq => hmem q (List.mem_cons_of_mem p hq)
    have hp := hmem p (List.mem_cons_self p rest)
    simp only [supportedLocs, List.mem_cons, List.not_mem_nil, or_false] at hp
    rcases hp with h1 | h1 | h1 | h1 | h1
    · rw [independentLoop, h1] at h
      simp only [if_pos rfl] at h
      exact ih _ hrest loc h
    · rw [independentLoop, h1] at h
      simp only [reduceIte] at h
      exact ih _ hrest loc h
    · rw [independentLoop, h1] at h
      simp only [reduceIte] at h
      exact ih _ hrest loc h
    · rw [independentLoop, h1] at h
      simp only [reduceIte] at h
      by_cases hb : st.reqBody.isSome
      · rw [if_pos hb] at h; simp at h
      · rw [if_neg hb] at h
        exact ih _ hrest loc h
    · rw [independentLoop, h1] at h
      simp only [reduceIte] at h
      exact ih _ hrest loc h

theorem independentLoop_ok_locations (pathParams : List (String × String)) :
    ∀ (ps : List ParamInfo) (st st' : BodyState),
      independentLoop pathParams st ps = .ok st' →
      ∀ p ∈ ps, p.out.location ∈ supportedLocs := by
  intro ps
  induction ps with
  | nil => intro st st' _ p hp; simp at hp
  | cons q rest ih =>
    intro st st' h p hp
    by_cases h1 : q.out.location = "path"
    · rw [independentLoop, h1] at h
      simp only [if_pos rfl] at h
      rcases List.mem_cons.mp hp with hpq | hpr
      · subst hpq; simp [supportedLocs, h1]
      · exact ih _ _ h p hpr
    · by_cases h2 : q.out.location = "query"
      · rw [independentLoop, h2] at h
        simp only [reduceIte] at h
        rcases List.mem_cons.mp hp with hpq | hpr
        · subst hpq; simp [supportedLocs, h2]
        · exact ih _ _ h p hpr
      · by_cases h3 : q.out.location = "header"
        · rw [independentLoop, h3] at h
          simp only [reduceIte] at h
          rcases List.mem_cons.mp hp with hpq | hpr
          · subst hpq; simp [supportedLocs, h3]
          · exact ih _ _ h p hpr
        · by_cases h4 : q.out.location = "body"
          · rw [independentLoop, h4] at h
            simp only [reduceIte] at h
            by_cases hb : st.reqBody.isSome
            · rw [if_pos hb] at h; simp at h
            · rw [if_neg hb] at h
              rcases List.mem_cons.mp hp with hpq | hpr
              · subst hpq; simp [supportedLocs, h4]
              · exact ih _ _ h p hpr
          · by_cases h5 : q.out.location = "formData"
            · rw [independentLoop, h5] at h
              simp only [reduceIte] at h
              rcases List.mem_cons.mp hp with hpq | hpr
              · subst hpq; simp [supportedLocs, h5]
              · exact ih _ _ h p hpr
            · rw [independentLoop] at h
              rw [if_neg h1, if_neg h2, if_neg h3, if_neg h4, if_neg h5] at h
              simp at h

/-- Object schema with one property, declared at the `formData` location
through its single parameter, for the C2 counterexample. -/
def c2FDObjSchema : SchemaNode := .node none (some "object") [("file", primSchema "file")] none none []

/-- Operation declaring exactly one object-typed parameter whose location
is `formData`, which triggers the grouped case. -/
def c2Method : MethodInfo :=
  { parameters := some [{ name := "fileUpload", inLoc := "formData", schema := some c2FDObjSchema }] }

/-- The logical parameters the grouped case produces for `c2Method`. -/
def c2Params : List ParamInfo :=
  [{ name := "file", type := some "file", description := "",
     out := { param := "fileUpload", location := "formData" }, required := true }]

/-- C2 (counterexample): a resolved parameter location of `formData` is
inside the claimed supported set, and the grouped (`isMapped`) case is
reached from a single object-typed parameter declared at `formData`; yet
body generation raises the unsupported-parameter-location error for it,
because the grouped branch handles only path, query, header and body. -/
theorem C2_counterexample :
    (buildParamsInfo "/v1/upload" c2Method []).map (fun r => (r.1.params, r.1.isMapped))
      = .ok (c2Params, true)
    ∧ buildMethodBody "https://u/v1/upload" "post" c2Params [] true
      = .error (.unsupportedLocation "formData") := by
  constructor
  · decide
  · decide

/-- C2 (amended): in the grouped case only the locations path, query,
header and body complete without error, and any other location — `formData`
included — raises the unsupported-parameter-location hard error; in the
independent case all five locations path, query, header, body and formData
avoid that error (generation may still fail with the duplicate-body error),
and a parameter at any location outside that set makes generation fail with
a hard error. -/
theorem C2_amended :
    (∀ (url mt : String) (params : List ParamInfo) (pathParams : List (String × String))
        (lastP : ParamInfo), params.getLast? = some lastP →
        (lastP.out.location = "path" ∨ lastP.out.location = "query" ∨
          lastP.out.location = "header" ∨ lastP.out.location = "body") →
        ∃ s, buildMethodBody url mt params pathParams true = .ok s)
    ∧ (∀ (url mt : String) (params : List ParamInfo) (pathParams : List (String × String))
        (lastP : ParamInfo), params.getLast? = some lastP →
        lastP.out.location ∉ (["path", "query", "header", "body"] : List String) →
        buildMethodBody url mt params pathParams true
          = .error (.unsupportedLocation lastP.out.location))
    ∧ (∀ (url mt : String) (params : List ParamInfo) (pathParams : List (String × String)),
        (∀ p ∈ params, p.out.location ∈ supportedLocs) →
        ∀ loc, buildMethodBody url mt params pathParams false ≠ .error (.unsupportedLocation loc))
    ∧ (∀ (url mt : String) (params : List ParamInfo) (pathParams : List (String × String))
        (p : ParamInfo), p ∈ params → p.out.location ∉ supportedLocs →
        ∃ e, buildMethodBody url mt params pathParams false = .error e) := by
  refine ⟨?grouped, ?groupedBad, ?indepGood, ?indepBad⟩
  case grouped =>
    intro url mt params pathParams lastP hlast hloc
    rcases hloc with h1 | h1 | h1 | h1 <;>
      exact ⟨_, by simp only [buildMethodBody, hlast, h1, String.reduceEq, reduceIte]; rfl⟩
  case groupedBad =>
    intro url mt params pathParams lastP hlast hloc
    simp only [List.mem_cons, List.not_mem_nil, or_false, not_or] at hloc
    obtain ⟨n1, n2, n3, n4⟩ := hloc
    simp only [buildMethodBody, hlast, if_true]
    rw [if_neg n1, if_neg n2, if_neg n3, if_neg n4]
  case indepGood =>
    intro url mt params pathParams hmem loc h
    simp only [buildMethodBody] at h
    cases hloop : independentLoop pathParams { fullURL := url } params with
    | error e =>
      rw [hloop] at h
      simp at h
      exact independentLoop_no_unsupported pathParams params _ hmem loc (by rw [hloop, h])
    | ok st => rw [hloop] at h; simp at h
  case indepBad =>
    intro url mt params pathParams p hp hbad
    cases hloop : independentLoop pathParams { fullURL := url } params with
    | error e => exact ⟨e, by simp [buildMethodBody, hloop]⟩
    | ok st => exact absurd (independentLoop_ok_locations pathParams params _ _ hloop p hp) hbad

/-- Grouped logical parameter at the body location, for the C2 witness. -/
def c2WParams : List ParamInfo :=
  [{ name := "data", type := some "object", description := "",
     out := { param := "data", location := "body" }, required := true }]

/-- Independent query parameter, for the C2 witness. -/
def c2WIndep : List ParamInfo :=
  [{ name := "userId", type := some "long", description := "",
     out := { param := "userId", location := "query" }, required := true }]

/-- C2 (witness): the amended theorem applied to a grouped body-location
parameter (generation succeeds) and to an independent query parameter (the
unsupported-location error is never raised). -/
theorem C2_witness :
    (∃ s, buildMethodBody "https://u/v1/x" "post" c2WParams [] true = .ok s)
    ∧ ∀ loc, buildMethodBody "https://u/v1/y" "get" c2WIndep [] false
        ≠ .error (.unsupportedLocation loc) := by
  constructor
  · exact C2_amended.1 "https://u/v1/x" "post" c2WParams [] _ rfl
      (Or.inr (Or.inr (Or.inr rfl)))
  · exact C2_amended.2.2.1 "https://u/v1/y" "get" c2WIndep [] (by decide)

/- ---- Lemmas about the parameter loops ---- -/

theorem independentParams_length (pathParams : List (String × String))
    (schemas : List (String × SchemaNode)) :
    ∀ (ps : List ParameterSpec) (l : List ParamInfo),
      independentParams pathParams schemas ps = .ok l → l.length = ps.length := by
  intro ps
  induction ps with
  | nil =>
    intro l h
    simp only [independentParams] at h
    simp at h
    simp [← h]
  | cons p rest ih =>
    intro l h
    simp only [independentParams] at h
    cases htype : resolveParamType p schemas with
    | error e => rw [htype] at h; simp at h
    | ok t =>
      rw [htype] at h
      cases hrest : independentParams pathParams schemas rest with
      | error e => rw [hrest] at h; simp at h
      | ok tail =>
        rw [hrest] at h
        simp at h
        rw [← h]
        simp [ih tail hrest]

theorem mappedParams_required (out : OutSpec) (schemas : List (String × SchemaNode)) :
    ∀ (props : List (String × SchemaNode)) (l : List ParamInfo),
      mappedParams out schemas props = .ok l → ∀ q ∈ l, q.required = true := by
  intro props
  induction props with
  | nil =>
    intro l h q hq
    simp only [mappedParams] at h
    simp at h
    subst h
    simp at hq
  | cons entry rest ih =>
    intro l h q hq
    obtain ⟨name, propInfo⟩ := entry
    simp only [mappedParams] at h
    cases htype : groupedParamType propInfo schemas with
    | error e => rw [htype] at h; simp at h
    | ok t =>
      rw [htype] at h
      cases hrest : mappedParams out schemas rest with
      | error e => rw [hrest] at h; simp at h
      | ok tail =>
        rw [hrest] at h
        simp at h
        rw [← h] at hq
        rcases List.mem_cons.mp hq with hh | hh
        · rw [hh]
        · exact ih tail hrest q hh

theorem independentParams_outs (pathParams : List (String × String))
    (schemas : List (String × SchemaNode)) :
    ∀ (ps : List ParameterSpec) (l : List ParamInfo),
      independentParams pathParams schemas ps = .ok l →
      l.map (fun q => q.out) = ps.map (paramOut pathParams) := by
  intro ps
  induction ps with
  | nil =>
    intro l h
    simp only [independentParams] at h
    simp at h
    simp [← h]
  | cons p rest ih =>
    intro l h
    simp only [independentParams] at h
    cases htype : resolveParamType p schemas with
    | error e => rw [htype] at h; simp at h
    | ok t =>
      rw [htype] at h
      cases hrest : independentParams pathParams schemas rest with
      | error e => rw [hrest] at h; simp at h
      | ok tail =>
        rw [hrest] at h
        simp at h
        rw [← h]
        simp [ih tail hrest]

theorem mem_sortParameters {p : ParameterSpec} {ps : List ParameterSpec} :
    p ∈ sortParameters ps ↔ p ∈ ps := by
  rw [sortParameters_eq]
  simp only [List.mem_append, List.mem_reverse, List.mem_filter]
  constructor
  · rintro (⟨h, _⟩ | ⟨h, _⟩) <;> exact h
  · intro h
    by_cases hr : isReq p = true
    · exact Or.inl ⟨h, hr⟩
    · exact Or.inr ⟨h, by simpa using hr⟩

theorem buildParamsInfo_ok_core {path : String} {m : MethodInfo}
    {schemas : List (String × SchemaNode)} {info : ParamsInfo} {m2 : MethodInfo}
    (h : buildParamsInfo path m schemas = .ok (info, m2)) :
    buildParamsInfoCore path (m.parameters.map sortParameters) schemas = .ok info
    ∧ m2 = { m with parameters := m.parameters.map sortParameters } := by
  simp only [buildParamsInfo] at h
  cases hcore : buildParamsInfoCore path (m.parameters.map sortParameters) schemas with
  | error e => rw [hcore] at h; simp [Except.map] at h
  | ok i =>
    rw [hcore] at h
    simp [Except.map] at h
    exact ⟨by rw [h.1], h.2.symm⟩

/-- C10: in the single-object-parameter grouped case, every promoted
property is recorded as required, whatever the object schema's own
`required` list says (the statement quantifies over every schema table and
so over every `requiredProps` value, which the embedding carries but the
generator never reads), and therefore the runtime guard fires for every
promoted property the caller omits. -/
theorem C10_required_promotion (path : String) (m : MethodInfo)
    (schemas : List (String × SchemaNode)) (info : ParamsInfo) (m2 : MethodInfo)
    (h : buildParamsInfo path m schemas = .ok (info, m2)) (hm : info.isMapped = true) :
    (∀ q ∈ info.params, q.required = true)
    ∧ ∀ q ∈ info.params, ∀ args : List (String × JSValue),
        jsGetProp args q.name = none → guardFires q args = true := by
  obtain ⟨hcore, -⟩ := buildParamsInfo_ok_core h
  have hreq : ∀ q ∈ info.params, q.required = true := by
    cases hps : m.parameters with
    | none =>
      rw [hps] at hcore
      simp only [Option.map_none', buildParamsInfoCore] at hcore
      simp at hcore
      subst hcore
      simp at hm
    | some ps =>
      rw [hps] at hcore
      simp only [Option.map_some'] at hcore
      cases hsorted : sortParameters ps with
      | nil =>
        rw [hsorted] at hcore
        simp only [buildParamsInfoCore, independentParams] at hcore
        simp at hcore
        subst hcore
        simp at hm
      | cons a tail =>
        cases tail with
        | nil =>
          rw [hsorted] at hcore
          simp only [buildParamsInfoCore] at hcore
          cases hsch : a.schema with
          | none =>
            simp only [hsch] at hcore
            cases hind : independentParams (buildPathParams path) schemas [a] with
            | error e => simp only [hind] at hcore; simp at hcore
            | ok l =>
              simp only [hind] at hcore
              simp at hcore
              subst hcore
              simp at hm
          | some node =>
            simp only [hsch] at hcore
            cases hex : extractSchemaNode node schemas with
            | error e => simp only [hex] at hcore; simp at hcore
            | ok schema =>
              simp only [hex] at hcore
              cases htype : schema.type == some "object" with
              | false =>
                simp only [htype, Bool.false_eq_true, reduceIte] at hcore
                simp at hcore
                subst hcore
                simp at hm
              | true =>
                simp only [htype, reduceIte] at hcore
                cases hmp : mappedParams (paramOut (buildPathParams path) a) schemas
                    schema.properties with
                | error e => simp only [hmp] at hcore; simp at hcore
                | ok mp =>
                  simp only [hmp] at hcore
                  simp at hcore
                  subst hcore
                  exact mappedParams_required _ _ _ _ hmp
        | cons b t2 =>
          rw [hsorted] at hcore
          simp only [buildParamsInfoCore] at hcore
          cases hind : independentParams (buildPathParams path) schemas (a :: b :: t2) with
          | error e => simp only [hind] at hcore; simp at hcore
          | ok l =>
            simp only [hind] at hcore
            simp at hcore
            subst hcore
            simp at hm
  refine ⟨hreq, ?_⟩
  intro q hq args hnone
  simp [guardFires, destructuringDefaultUsed, hreq q hq, hnone]

/-- Object schema whose own `required` list names only one of its two
properties, for the C10 witness. -/
def c10ObjSchema : SchemaNode :=
  .node none (some "object")
    [("target-id", primSchema "long"), ("decorators", primSchema "string")]
    none none ["target-id"]

/-- Operation with the single object-typed body parameter referring to the
schema above. -/
def c10Method : MethodInfo :=
  { parameters := some [{ name := "body", inLoc := "body", schema := some (refSchema "Msg") }] }

/-- Definitions table for the C10 witness. -/
def c10Defs : List (String × SchemaNode) := [("Msg", c10ObjSchema)]

/-- C10 (witness): the theorem applied to a concrete grouped operation
whose object schema declares only one of its two properties as required —
both promoted parameters are nevertheless required, and the guard fires for
an omitted one. -/
theorem C10_witness :
    ∃ info m2, buildParamsInfo "/v2/send" c10Method c10Defs = .ok (info, m2)
      ∧ info.isMapped = true
      ∧ (∀ q ∈ info.params, q.required = true)
      ∧ ∀ q ∈ info.params, guardFires q [] = true := by
  have hok : (buildParamsInfo "/v2/send" c10Method c10Defs).toOption.isSome = true := by decide
  have hmap : (buildParamsInfo "/v2/send" c10Method c10Defs).map (fun r => r.1.isMapped)
      = .ok true := by decide
  cases hbp : buildParamsInfo "/v2/send" c10Method c10Defs with
  | error e => rw [hbp] at hok; simp [Except.toOption] at hok
  | ok r =>
    obtain ⟨info, m2⟩ := r
    have hm : info.isMapped = true := by
      rw [hbp] at hmap
      simpa [Except.map] using hmap
    refine ⟨info, m2, rfl, hm,
      (C10_required_promotion "/v2/send" c10Method c10Defs info m2 hbp hm).1, ?_⟩
    intro q hq
    exact (C10_required_promotion "/v2/send" c10Method c10Defs info m2 hbp hm).2 q hq [] rfl

theorem sortParameters_eq_singleton {ps : List ParameterSpec} {p : ParameterSpec}
    (h : sortParameters ps = [p]) : ps = [p] := by
  have hlen : ps.length = 1 := by rw [← sortParameters_length ps, h]; rfl
  match ps, hlen with
  | [q], _ =>
    rw [sortParameters_singleton] at h
    exact h

/-- Operation declaring a single parameter whose schema resolves to a
non-object type, for the C5 counterexample. -/
def c5Method : MethodInfo :=
  { parameters := some [{ name := "userIds", inLoc := "body", schema := some (primSchema "string") }] }

/-- C5 (counterexample): a single declared parameter whose resolved schema
type is not `object` is not processed independently into one logical
parameter, as the claim requires for every non-grouped case — it is dropped
entirely: the parameter list comes out empty. -/
theorem C5_counterexample :
    (buildParamsInfo "/v1/presence" c5Method []).map
        (fun r => (r.1.params.length, r.1.isMapped))
      = .ok (0, false)
    ∧ (0 : Nat) ≠ 1 := by
  constructor
  · decide
  · decide

/-- C5 (amended): grouping triggers exactly when exactly one parameter is
declared, it carries a schema, the schema resolves to type `object`, and
the object has at least one property; a single declared parameter whose
resolved schema type is not `object` produces no logical parameter at all;
in every other case — a declared count different from one, or a single
parameter without a schema — each declared parameter is processed
independently into one logical parameter, whose location is `path` when
the parameter's name matches a path placeholder and its own declared `in`
otherwise. -/
theorem C5_amended (path : String) (m : MethodInfo) (schemas : List (String × SchemaNode))
    (info : ParamsInfo) (m2 : MethodInfo)
    (h : buildParamsInfo path m schemas = .ok (info, m2)) :
    (info.isMapped = true ↔
      ∃ p node schema, m.parameters = some [p] ∧ p.schema = some node
        ∧ extractSchemaNode node schemas = .ok schema
        ∧ schema.type = some "object" ∧ schema.properties ≠ [])
    ∧ (∀ p node schema, m.parameters = some [p] → p.schema = some node →
        extractSchemaNode node schemas = .ok schema → schema.type ≠ some "object" →
        info.params = [] ∧ info.isMapped = false)
    ∧ (∀ ps, m.parameters = some ps → ps.length ≠ 1 →
        info.params.length = ps.length
        ∧ ∀ p ∈ ps, ∃ q ∈ info.params, q.out.param = p.name
            ∧ q.out.location =
              if (List.lookup p.name (buildPathParams path)).isSome then "path" else p.inLoc)
    ∧ (∀ p, m.parameters = some [p] → p.schema = none →
        info.params.length = 1
        ∧ ∃ q ∈ info.params, q.out.param = p.name
            ∧ q.out.location =
              if (List.lookup p.name (buildPathParams path)).isSome then "path" else p.inLoc) := by
  obtain ⟨hcore, -⟩ := buildParamsInfo_ok_core h
  refine ⟨⟨?fwd, ?bwd⟩, ?nonObj, ?multi, ?noSchema⟩
  case fwd =>
    intro hm
    cases hps : m.parameters with
    | none =>
      rw [hps] at hcore
      simp only [Option.map_none', buildParamsInfoCore] at hcore
      simp at hcore
      subst hcore
      simp at hm
    | some ps =>
      rw [hps] at hcore
      simp only [Option.map_some'] at hcore
      cases hsorted : sortParameters ps with
      | nil =>
        rw [hsorted] at hcore
        simp only [buildParamsInfoCore, independentParams] at hcore
        simp at hcore
        subst hcore
        simp at hm
      | cons a tail =>
        cases tail with
        | nil =>
          rw [hsorted] at hcore
          simp only [buildParamsInfoCore] at hcore
          cases hsch : a.schema with
          | none =>
            simp only [hsch] at hcore
            cases hind : independentParams (buildPathParams path) schemas [a] with
            | error e => simp only [hind] at hcore; simp at hcore
            | ok l =>
              simp only [hind] at hcore
              simp at hcore
              subst hcore
              simp at hm
          | some node =>
            simp only [hsch] at hcore
            cases hex : extractSchemaNode node schemas with
            | error e => simp only [hex] at hcore; simp at hcore
            | ok schema =>
              simp only [hex] at hcore
              cases htype : schema.type == some "object" with
              | false =>
                simp only [htype, Bool.false_eq_true, reduceIte] at hcore
                simp at hcore
                subst hcore
                simp at hm
              | true =>
                simp only [htype, reduceIte] at hcore
                cases hmp : mappedParams (paramOut (buildPathParams path) a) schemas
                    schema.properties with
                | error e => simp only [hmp] at hcore; simp at hcore
                | ok mp =>
                  simp only [hmp] at hcore
                  simp at hcore
                  subst hcore
                  simp only [ParamsInfo.isMapped] at hm
                  refine ⟨a, node, schema, by rw [sortParameters_eq_singleton hsorted],
                    hsch, hex, by simpa using htype, ?_⟩
                  intro hempty
                  rw [hempty] at hm
                  simp at hm
        | cons b t2 =>
          rw [hsorted] at hcore
          simp only [buildParamsInfoCore] at hcore
          cases hind : independentParams (buildPathParams path) schemas (a :: b :: t2) with
          | error e => simp only [hind] at hcore; simp at hcore
          | ok l =>
            simp only [hind] at hcore
            simp at hcore
            subst hcore
            simp at hm
  case bwd =>
    rintro ⟨p, node, schema, hpm, hsch, hex, htypeEq, hprops⟩
    rw [hpm] at hcore
    simp only [Option.map_some', sortParameters_singleton, buildParamsInfoCore] at hcore
    simp only [hsch, hex] at hcore
    have hb : (schema.type == some "object") = true := by simp [htypeEq]
    simp only [hb, reduceIte] at hcore
    cases hmp : mappedParams (paramOut (buildPathParams path) p) schemas schema.properties with
    | error e => simp only [hmp] at hcore; simp at hcore
    | ok mp =>
      simp only [hmp] at hcore
      simp at hcore
      subst hcore
      simpa using hprops
  case nonObj =>
    intro p node schema hpm hsch hex htype
    rw [hpm] at hcore
    simp only [Option.map_some', sortParameters_singleton, buildParamsInfoCore] at hcore
    simp only [hsch, hex] at hcore
    have hb : (schema.type == some "object") = false := by
      simpa using htype
    simp only [hb, Bool.false_eq_true, reduceIte] at hcore
    simp at hcore
    subst hcore
    exact ⟨rfl, rfl⟩
  case multi =>
    intro ps hpm hlen
    rw [hpm] at hcore
    simp only [Option.map_some'] at hcore
    cases hsorted : sortParameters ps with
    | nil =>
      rw [hsorted] at hcore
      simp only [buildParamsInfoCore, independentParams] at hcore
      simp at hcore
      subst hcore
      have hlen0 : ps.length = 0 := by rw [← sortParameters_length ps, hsorted]; rfl
      have hps0 : ps = [] := List.length_eq_zero.mp hlen0
      subst hps0
      simp
    | cons a tail =>
      cases tail with
      | nil => exact absurd (by rw [sortParameters_eq_singleton hsorted]; rfl : ps.length = 1) hlen
      | cons b t2 =>
        rw [hsorted] at hcore
        simp only [buildParamsInfoCore] at hcore
        cases hind : independentParams (buildPathParams path) schemas (a :: b :: t2) with
        | error e => simp only [hind] at hcore; simp at hcore
        | ok l =>
          simp only [hind] at hcore
          simp at hcore
          subst hcore
          have h1 := independentParams_length (buildPathParams path) schemas _ _ hind
          have h2 : ps.length = (a :: b :: t2).length := by
            rw [← sortParameters_length ps, hsorted]
          refine ⟨by simpa [h2] using h1, ?_⟩
          intro p hp
          have hmem : p ∈ (a :: b :: t2) := by
            rw [← hsorted]
            exact mem_sortParameters.mpr hp
          have houts := independentParams_outs (buildPathParams path) schemas _ _ hind
          have hmap : paramOut (buildPathParams path) p ∈ l.map (fun q => q.out) := by
            rw [houts]
            exact List.mem_map_of_mem _ hmem
          obtain ⟨q, hq, hqout⟩ := List.mem_map.mp hmap
          exact ⟨q, hq, by rw [hqout]; rfl, by rw [hqout]; rfl⟩
  case noSchema =>
    intro p hpm hschn
    rw [hpm] at hcore
    simp only [Option.map_some', sortParameters_singleton, buildParamsInfoCore] at hcore
    simp only [hschn] at hcore
    cases hind : independentParams (buildPathParams path) schemas [p] with
    | error e => simp only [hind] at hcore; simp at hcore
    | ok l =>
      simp only [hind] at hcore
      simp at hcore
      subst hcore
      refine ⟨by simpa using independentParams_length (buildPathParams path) schemas _ _ hind, ?_⟩
      have houts := independentParams_outs (buildPathParams path) schemas _ _ hind
      have hmap : paramOut (buildPathParams path) p ∈ l.map (fun q => q.out) := by
        rw [houts]
        exact List.mem_map_of_mem _ (by simp)
      obtain ⟨q, hq, hqout⟩ := List.mem_map.mp hmap
      exact ⟨q, hq, by rw [hqout]; rfl, by rw [hqout]; rfl⟩

/-- Operation declaring two independent parameters — one whose name
matches a path placeholder even though its declared location is `query`,
and one named after no placeholder — for the C5 witness. -/
def c5WMethod : MethodInfo :=
  { parameters := some [{ name := "userId", inLoc := "query", type := some "long" },
                        { name := "limit", inLoc := "query", type := some "int" }] }

/-- C5 (witness): the amended theorem applied to a concrete operation with
two declared parameters on a path carrying a `userId` placeholder: no
grouping, one logical parameter per declared parameter, the placeholder
name is overridden to the `path` location, and the other parameter keeps
its declared `query` location. -/
theorem C5_witness :
    ∃ info m2,
      buildParamsInfo "/v1/users/\x7buserId\x7d/friends" c5WMethod [] = .ok (info, m2)
      ∧ info.isMapped = false ∧ info.params.length = 2
      ∧ (∃ q ∈ info.params, q.out.param = "userId" ∧ q.out.location = "path")
      ∧ (∃ q ∈ info.params, q.out.param = "limit" ∧ q.out.location = "query") := by
  have hok : (buildParamsInfo "/v1/users/\x7buserId\x7d/friends" c5WMethod
      []).toOption.isSome = true := by decide
  cases hbp : buildParamsInfo "/v1/users/\x7buserId\x7d/friends" c5WMethod [] with
  | error e => rw [hbp] at hok; simp [Except.toOption] at hok
  | ok r =>
    obtain ⟨info, m2⟩ := r
    obtain ⟨hlen, hout⟩ :=
      (C5_amended "/v1/users/\x7buserId\x7d/friends" c5WMethod [] info m2 hbp).2.2.1
        _ rfl (by decide)
    have hmapped : info.isMapped = false := by
      by_contra hm
      obtain ⟨p, node, schema, hpm, -⟩ :=
        ((C5_amended "/v1/users/\x7buserId\x7d/friends" c5WMethod [] info m2 hbp).1).mp
          (by simpa using hm)
      simp [c5WMethod] at hpm
    obtain ⟨q1, hq1, hn1, hl1⟩ :=
      hout { name := "userId", inLoc := "query", type := some "long" } (by simp)
    obtain ⟨q2, hq2, hn2, hl2⟩ :=
      hout { name := "limit", inLoc := "query", type := some "int" } (by simp)
    refine ⟨info, m2, rfl, hmapped, by simpa using hlen,
      ⟨q1, hq1, ?_, ?_⟩, ⟨q2, hq2, ?_, ?_⟩⟩
    · rw [hn1]
    · rw [hl1]; decide
    · rw [hn2]
    · rw [hl2]; decide

/-- Required query parameter `a` for the C9 counterexample. -/
def c9ParamA : ParameterSpec :=
  { name := "a", inLoc := "query", required := some true, type := some "string" }

/-- Required query parameter `b` for the C9 counterexample. -/
def c9ParamB : ParameterSpec :=
  { name := "b", inLoc := "query", required := some true, type := some "string" }

/-- Operation with two required parameters, for the C9 counterexample. -/
def c9Method : MethodInfo := { summary := some "Send", parameters := some [c9ParamA, c9ParamB] }

/-- C9 (counterexample): compilation is not idempotent.  The in-place
parameter sort mutates the operation node; with two required parameters the
engine's sort reverses their order on every pass, so compiling the same
operation twice produces two different method texts — the comparison of the
two generated texts evaluates to `false`. -/
theorem C9_counterexample :
    ((compileOperation "Users" "https://users.roblox.com" "/v1/users" "post" c9Method [] 1).bind
      (fun r =>
        (compileOperation "Users" "https://users.roblox.com" "/v1/users" "post" r.2 [] 1).map
          (fun r2 => r.1 == r2.1)))
      = Except.ok false := by
  decide

/-- C9 (amended): compilation does mutate its input — it leaves the
parameter list sorted — and a second compilation of the mutated input
yields the identical method text and state exactly when the sorted order is
stable under another pass, which holds whenever the operation declares at
most one required parameter; with two or more required parameters the sort
reverses them again and the texts differ (see the counterexample). -/
theorem C9_amended (apiClassName url path methodType : String) (m : MethodInfo)
    (schemas : List (String × SchemaNode)) (n : Nat) (t : String) (m1 : MethodInfo)
    (hreq : ∀ ps, m.parameters = some ps → (ps.filter isReq).length ≤ 1)
    (h1 : compileOperation apiClassName url path methodType m schemas n = .ok (t, m1)) :
    compileOperation apiClassName url path methodType m1 schemas n = .ok (t, m1) := by
  have hidem : (m.parameters.map sortParameters).map sortParameters
      = m.parameters.map sortParameters := by
    cases hmp : m.parameters with
    | none => rfl
    | some ps => simp [Option.map_some', sortParameters_idem ps (hreq ps hmp)]
  simp only [compileOperation] at h1 ⊢
  cases hbp : buildParamsInfo path m schemas with
  | error e => rw [hbp] at h1; simp at h1
  | ok r =>
    obtain ⟨info, m'⟩ := r
    simp only [hbp] at h1
    cases hbb : buildMethodBody (url ++ path) methodType info.params info.pathParams
        info.isMapped with
    | error e => simp only [hbb] at h1; simp at h1
    | ok body =>
      simp only [hbb] at h1
      simp at h1
      obtain ⟨ht, hm'⟩ := h1
      obtain ⟨hcore, hm'eq⟩ := buildParamsInfo_ok_core hbp
      subst hm'
      subst hm'eq
      have hbp1 : buildParamsInfo path
          { m with parameters := m.parameters.map sortParameters } schemas
          = .ok (info, { m with parameters := m.parameters.map sortParameters }) := by
        simp only [buildParamsInfo, hidem, hcore, Except.map]
      simp only [hbp1, hbb]
      simp [ht]

/-- Operation with a single required parameter, for the C9 witness. -/
def c9WMethod : MethodInfo := { summary := some "Send", parameters := some [c9ParamA] }

/-- C9 (witness): the amended theorem applied to an operation with one
required parameter: the second compilation reproduces the first one's text
and state exactly. -/
theorem C9_witness :
    ∃ t m1, compileOperation "Users" "https://users.roblox.com" "/v1/users" "post"
        c9WMethod [] 1 = .ok (t, m1)
      ∧ compileOperation "Users" "https://users.roblox.com" "/v1/users" "post"
        m1 [] 1 = .ok (t, m1) := by
  have hok : (compileOperation "Users" "https://users.roblox.com" "/v1/users" "post"
      c9WMethod [] 1).toOption.isSome = true := by decide
  cases hc : compileOperation "Users" "https://users.roblox.com" "/v1/users" "post"
      c9WMethod [] 1 with
  | error e => rw [hc] at hok; simp [Except.toOption] at hok
  | ok r =>
    obtain ⟨t, m1⟩ := r
    refine ⟨t, m1, rfl, ?_⟩
    exact C9_amended "Users" "https://users.roblox.com" "/v1/users" "post" c9WMethod [] 1 t m1
      (by intro ps hps; simp [c9WMethod] at hps; subst hps; decide) hc
